import Mathlib

/-!
Verification of the ComposerButtonBonanza layout parser and action resolver.

This file is a shallow embedding of
`javascripts/discourse/api-initializers/api-initializer.js` (the deferred-
viewport variant, which the repository treats as authoritative).  Pure string
processing is translated to Lean functions over `String`/`List Char`; the
mutable module-level state (`TOGGLE_GROUPS`, the parse result, the closure
state of a toggle action) is translated to explicit state passing.
-/

namespace CBB

/-- The component key constant `CBBKEY`. -/
def CBBKEY : String := "ComposerButtonBonanza"

/-- `makeButtonIdentifier(buttonName)`: the synthesized element identifier
for a button. -/
def makeButtonIdentifier (buttonName : String) : String :=
  CBBKEY ++ "-btn-" ++ buttonName

/-- Models JavaScript `s.split(sep)` for a single-character separator,
at the level of character lists.  `split` always yields at least one
(possibly empty) piece. -/
def splitListOn (sep : Char) : List Char → List (List Char)
  | [] => [[]]
  | c :: cs =>
    match splitListOn sep cs with
    | [] => [[c]]
    | l :: ls => if c = sep then [] :: l :: ls else (c :: l) :: ls

/-- JavaScript `s.split(sep)` for a single-character separator. -/
def jsSplit (sep : Char) (s : String) : List String :=
  (splitListOn sep s.data).map String.mk

/-- The placement categories (`Place` enumeration): directly in the toolbar,
or hidden in the gear popup menu. -/
inductive Place where
  | TOOLBAR
  | GEARMENU
deriving DecidableEq

/-- One value of the frozen `SECTIONS` object: a placement category plus the
optional toolbar group name (the `GEARMENU` section has no group name, its
array has length one). -/
structure SectionSpec where
  place : Place
  groupName : Option String
deriving DecidableEq

/-- `SECTIONS.STYLES`. -/
def sectionSTYLES : SectionSpec := ⟨Place.TOOLBAR, some "fontStyles"⟩

/-- `SECTIONS.INSERTIONS`. -/
def sectionINSERTIONS : SectionSpec := ⟨Place.TOOLBAR, some "insertions"⟩

/-- `SECTIONS.EXTRAS`. -/
def sectionEXTRAS : SectionSpec := ⟨Place.TOOLBAR, some "extras"⟩

/-- `SECTIONS.GEARMENU`. -/
def sectionGEARMENU : SectionSpec := ⟨Place.GEARMENU, none⟩

/-- Key lookup in the frozen `SECTIONS` object: `entry in SECTIONS` holds
exactly when this returns `some`, and `SECTIONS[entry]` is the returned
value. -/
def lookupSection : String → Option SectionSpec
  | "STYLES" => some sectionSTYLES
  | "INSERTIONS" => some sectionINSERTIONS
  | "EXTRAS" => some sectionEXTRAS
  | "GEARMENU" => some sectionGEARMENU
  | _ => none

/-- The `buttonSpec` record built by `parseLayoutEntry`: `pieces[i]` on a
JavaScript array yields `undefined` past the end, modelled by `none`. -/
structure ButtonSpec where
  name : Option String
  shortcut : Option String
  toggleGroup : Option String
deriving DecidableEq

/-- The full result record of `parseLayoutEntry`. -/
structure ParsedEntry where
  allowDesktop : Bool
  allowMobile : Bool
  buttonSpec : ButtonSpec
deriving DecidableEq

/-- `parseLayoutEntry(entry)`: split the entry on commas, strip an optional
leading viewport flag (`"X"`/`"M"`/`"D"`, each consumed with `shift()`),
then read the remaining pieces positionally as name, shortcut,
toggle-group. -/
def parseLayoutEntry (entry : String) : ParsedEntry :=
  match jsSplit ',' entry with
  | "X" :: rest =>
    ⟨false, false, ⟨rest.get? 0, rest.get? 1, rest.get? 2⟩⟩
  | "M" :: rest =>
    ⟨false, true, ⟨rest.get? 0, rest.get? 1, rest.get? 2⟩⟩
  | "D" :: rest =>
    ⟨true, false, ⟨rest.get? 0, rest.get? 1, rest.get? 2⟩⟩
  | pieces =>
    ⟨true, true, ⟨pieces.get? 0, pieces.get? 1, pieces.get? 2⟩⟩

/-- An element of `result.toolbar` in `parseLayout`: the pushed record
`{ section: currentSection[1], buttonSpec, allowDesktop, allowMobile }`
(the `section` field is called `sectionName` here because `section` is a
Lean keyword). -/
structure ToolbarPlanEntry where
  sectionName : Option String
  buttonSpec : ButtonSpec
  allowDesktop : Bool
  allowMobile : Bool
deriving DecidableEq

/-- An element of `result.gearmenu` in `parseLayout`. -/
structure GearPlanEntry where
  buttonSpec : ButtonSpec
  allowDesktop : Bool
  allowMobile : Bool
deriving DecidableEq

/-- The `result` object of `parseLayout`. -/
structure PlacementPlan where
  toolbar : List ToolbarPlanEntry
  gearmenu : List GearPlanEntry
deriving DecidableEq

/-- The mutable `TOGGLE_GROUPS` object: an insertion-ordered mapping from
group name to the list of button specs pushed for that group. -/
def ToggleGroups := List (String × List ButtonSpec)

instance : DecidableEq ToggleGroups := by
  unfold ToggleGroups
  infer_instance

/-- Key lookup in `TOGGLE_GROUPS` (`TOGGLE_GROUPS[g]`, `none` when the key
is absent, i.e. when the JavaScript expression is `undefined`). -/
def lookupTG : ToggleGroups → String → Option (List ButtonSpec)
  | [], _ => none
  | (k, l) :: rest, g => if k = g then some l else lookupTG rest g

/-- `TOGGLE_GROUPS[g] ||= []; TOGGLE_GROUPS[g].push(spec)`: append `spec`
to the group's list, creating the group (at the end of the key order) on
first use. -/
def addToGroup : ToggleGroups → String → ButtonSpec → ToggleGroups
  | [], g, spec => [(g, [spec])]
  | (k, l) :: rest, g, spec =>
    if k = g then (k, l ++ [spec]) :: rest else (k, l) :: addToGroup rest g spec

/-- JavaScript truthiness of `buttonSpec.toggleGroup`: `undefined` and the
empty string are falsy, so only a present non-empty string names a group. -/
def groupKey (spec : ButtonSpec) : Option String :=
  match spec.toggleGroup with
  | none => none
  | some g => if g = "" then none else some g

/-- The `if (toggleGroup) { ... push ... }` block of `parseLayout`. -/
def pushGroup (tgs : ToggleGroups) (spec : ButtonSpec) : ToggleGroups :=
  match groupKey spec with
  | none => tgs
  | some g => addToGroup tgs g spec

/-- The state threaded through `parseLayout`'s token loop: the accumulated
plan (`result`), the mutable `TOGGLE_GROUPS` object, and the mutable
`currentSection` variable. -/
structure ParseState where
  plan : PlacementPlan
  toggleGroups : ToggleGroups
  currentSection : SectionSpec
deriving DecidableEq

/-- One iteration of `parseLayout`'s `for (const entry of ...)` loop.  The
`try`/`catch` around the body is modelled by returning the state unchanged
on the paths that throw (the only throwing path for a well-typed state is
the unknown-button check); the thrown error is only logged by the source.
A `name` of `none` (entry exhausted by the flag) is treated as unknown,
matching `undefined in BUTTONS` for a button set without an
`"undefined"` key. -/
def processToken (buttons : List String) (st : ParseState) (entry : String) :
    ParseState :=
  match lookupSection entry with
  | some sec => { st with currentSection := sec }
  | none =>
    let pe := parseLayoutEntry entry
    match pe.buttonSpec.name with
    | none => st
    | some n =>
      if n ∈ buttons then
        let tgs := pushGroup st.toggleGroups pe.buttonSpec
        match st.currentSection.place with
        | Place.TOOLBAR =>
          { st with
            toggleGroups := tgs,
            plan := { st.plan with
              toolbar := st.plan.toolbar ++
                [⟨st.currentSection.groupName, pe.buttonSpec,
                  pe.allowDesktop, pe.allowMobile⟩] } }
        | Place.GEARMENU =>
          { st with
            toggleGroups := tgs,
            plan := { st.plan with
              gearmenu := st.plan.gearmenu ++
                [⟨pe.buttonSpec, pe.allowDesktop, pe.allowMobile⟩] } }
      else st

/-- The state at the top of `parseLayout`: empty plan, the fresh
`TOGGLE_GROUPS = {}` set up by the initializer, and
`currentSection = SECTIONS.EXTRAS`. -/
def initState : ParseState :=
  { plan := ⟨[], []⟩, toggleGroups := [], currentSection := sectionEXTRAS }

/-- `parseLayout`: fold the loop body over `settings.layout.split("|")`.
The source reads the layout string and the button map from module state;
here they are explicit parameters (`buttons` is the key set of
`BUTTONS`). -/
def parseLayout (buttons : List String) (layout : String) : ParseState :=
  (jsSplit '|' layout).foldl (processToken buttons) initState

/-- The predicate of JavaScript's `/\s/` on a single UTF-16 code unit /
code point: WhiteSpace and LineTerminator characters per ECMA-262. -/
def jsWhitespace (c : Char) : Bool :=
  let n := c.toNat
  (9 ≤ n && n ≤ 13) || n == 32 || n == 160 || n == 5760 ||
    (8192 ≤ n && n ≤ 8202) || n == 8232 || n == 8233 || n == 8239 ||
    n == 8287 || n == 12288 || n == 65279

/-- A composer text selection as used by `trimLeading`: a start offset plus
the selected text (`selection.value`, modelled as its character list). -/
structure Selection where
  start : Nat
  value : List Char
deriving DecidableEq

/-- The count computed by `trimLeading`'s `while` loop: how many leading
characters of the value match `/\s/`. -/
def leadingWsCount : List Char → Nat
  | [] => 0
  | c :: cs => if jsWhitespace c then leadingWsCount cs + 1 else 0

/-- `trimLeading(selection)`: shift `start` forward past the leading
whitespace and drop it from `value` (a no-op when `freshStart` is 0).
The source mutates its argument; the model returns the updated
selection. -/
def trimLeading (sel : Selection) : Selection :=
  let freshStart := leadingWsCount sel.value
  if 0 < freshStart then
    { start := sel.start + freshStart, value := sel.value.drop freshStart }
  else sel

/-- The slice of a `toolbarEvent` these claims touch: its `selected`
selection. -/
structure ToolbarEvent where
  selected : Selection
deriving DecidableEq

/-- One record of the active locale's `translations` override table
(`TRANSLATIONS` is a list of `{key, value}` objects). -/
structure TranslationEntry where
  key : String
  value : String
deriving DecidableEq

/-- `applyTranslation(defaultValue, buttonName, paramName)`.  The mutable
`TRANSLATIONS` module variable is an explicit parameter: `none` models a
falsy `TRANSLATIONS` (no table for the current locale).  The source does
`TRANSLATIONS.find((e) => e.key === key)?.value ?? defaultValue`; override
values are strings per the settings schema, so the `??` fallback fires
exactly when `find` misses. -/
def applyTranslation (translations : Option (List TranslationEntry))
    (defaultValue : String) (buttonName paramName : String) : String :=
  match translations with
  | none => defaultValue
  | some ts =>
    let key := buttonName ++ "." ++ paramName
    match ts.find? (fun e => e.key == key) with
    | some e => e.value
    | none => defaultValue

/-- The closure state of a resolved toggle action: the captured `isHidden`
boolean and the `disabled` flag of the constructed stylesheet. -/
structure ToggleState where
  isHidden : Bool
  stylesheetDisabled : Bool
deriving DecidableEq

/-- The body of the callback returned by `makeToggleAction`:
`isHidden = !isHidden; stylesheet.disabled = !isHidden`. -/
def toggleFlip (st : ToggleState) : ToggleState :=
  let h := !st.isHidden
  { isHidden := h, stylesheetDisabled := !h }

/-- JavaScript template-literal rendering of a possibly-`undefined`
string. -/
def jsTemplateStr : Option String → String
  | some s => s
  | none => "undefined"

/-- The two CSS rules inserted per group member by `makeToggleAction`,
in insertion-call order (`\x7b`/`\x7d` denote the literal braces of the
rule text). -/
def toggleRules (members : List ButtonSpec) : List String :=
  members.flatMap fun spec =>
    let identifier := makeButtonIdentifier (jsTemplateStr spec.name)
    ["." ++ identifier ++ " \x7b display: none !important; \x7d",
     "[data-name=\"" ++ identifier ++ "\"] \x7b display: none !important; \x7d"]

/-- The successful result of `makeToggleAction`: the initial closure state
(`isHidden = !!startHidden`, stylesheet constructed with
`disabled: !isHidden`), the inserted rules, and the returned callback.
The callback takes the toolbar event (which it never touches) and the
current closure state, and returns both. -/
structure ToggleAction where
  initial : ToggleState
  rules : List String
  callback : ToolbarEvent → ToggleState → ToolbarEvent × ToggleState

/-- `makeToggleAction(buttonName, groupName, startHidden)`, with the mutable
`TOGGLE_GROUPS` object an explicit parameter.  `!TOGGLE_GROUPS[groupName]`
throws exactly when the key is absent (an existing group list is a truthy
array); the thrown `Error` is modelled by `Except.error` (quotation marks
of the message elided). -/
def makeToggleAction (tgs : ToggleGroups) (buttonName groupName : String)
    (startHidden : Bool) : Except String ToggleAction :=
  match lookupTG tgs groupName with
  | none =>
    Except.error ("No buttons are assigned to toggle-group " ++ groupName ++
      " for button " ++ buttonName ++ ".")
  | some members =>
    Except.ok
      { initial := { isHidden := startHidden, stylesheetDisabled := !startHidden },
        rules := toggleRules members,
        callback := fun ev st => (ev, toggleFlip st) }

/-- The option record passed to `api.addComposerToolbarPopupMenuOption`.
`action` and `condition` are the registered callbacks; `condition` is a
function of the viewport read at menu-display time (`isDesktop`). -/
structure PopupMenuOption where
  icon : Option String
  label : String
  title : String
  name : String
  shortcut : Option String
  action : ToolbarEvent → ToolbarEvent
  condition : Bool → Bool

/-- `addPopupMenuButtonWithCondition`: the option record it registers.
The values the source derives via `makeCommonButtonOptions` and
`setI18nProperty` (`icon`, `titleKey`, `hoverKey`, the resolved `action`)
are parameters here.  The source writes `name: name`, but no `name`
binding exists anywhere in the module, so the identifier resolves to the
ambient browser global `window.name`; that global is the explicit
`globalName` parameter. -/
def addPopupMenuButtonWithCondition (globalName : String) (icon : Option String)
    (titleKey : String) (hoverKey : Option String) (buttonSpec : ButtonSpec)
    (act : ToolbarEvent → ToolbarEvent) (allowDesktop allowMobile : Bool) :
    PopupMenuOption :=
  { icon := icon,
    label := titleKey,
    title := match hoverKey with
             | some h => "composer." ++ h
             | none => titleKey,
    name := globalName,
    shortcut := buttonSpec.shortcut,
    action := fun ev => act { ev with selected := trimLeading ev.selected },
    condition := fun isDesktop =>
      (isDesktop && allowDesktop) || (!isDesktop && allowMobile) }

/-- The toolbar entries for which the `onToolbarCreate` callback reaches
`addToolbarButton`: the loop skips an entry when
`(isDesktop && !allowDesktop) || (!isDesktop && !allowMobile)`. -/
def onToolbarCreate (isDesktop : Bool) (toolbar : List ToolbarPlanEntry) :
    List ToolbarPlanEntry :=
  toolbar.filter fun e =>
    !((isDesktop && !e.allowDesktop) || (!isDesktop && !e.allowMobile))

/-- The gear-menu entries whose registered `condition` callback returns
`true` for the given viewport, i.e. the ones the popup menu shows. -/
def gearmenuShown (isDesktop : Bool) (gearmenu : List GearPlanEntry) :
    List GearPlanEntry :=
  gearmenu.filter fun e =>
    (isDesktop && e.allowDesktop) || (!isDesktop && e.allowMobile)

/-!  Specification-side reference definitions.  These follow the words of
the spec (one plan entry per valid button token, carrying the placement
target current at that token; section keywords switch the target and
produce nothing), to be compared against `parseLayout`. -/

/-- Reference: each valid button token of the layout, paired with the
placement target current at that token.  A section keyword switches the
target and contributes nothing; a token whose button name is missing from
the button set contributes nothing. -/
def specPlacementEntries (buttons : List String) (cur : SectionSpec) :
    List String → List (SectionSpec × ParsedEntry)
  | [] => []
  | t :: ts =>
    match lookupSection t with
    | some s => specPlacementEntries buttons s ts
    | none =>
      match (parseLayoutEntry t).buttonSpec.name with
      | some n =>
        if n ∈ buttons then
          (cur, parseLayoutEntry t) :: specPlacementEntries buttons cur ts
        else specPlacementEntries buttons cur ts
      | none => specPlacementEntries buttons cur ts

/-- Reference: the toolbar plan entry a placed entry yields, when its
target is a toolbar zone. -/
def specToolbarEntry (p : SectionSpec × ParsedEntry) : Option ToolbarPlanEntry :=
  if p.1.place = Place.TOOLBAR then
    some ⟨p.1.groupName, p.2.buttonSpec, p.2.allowDesktop, p.2.allowMobile⟩
  else none

/-- Reference: the gear-menu plan entry a placed entry yields, when its
target is the popup menu. -/
def specGearmenuEntry (p : SectionSpec × ParsedEntry) : Option GearPlanEntry :=
  if p.1.place = Place.GEARMENU then
    some ⟨p.2.buttonSpec, p.2.allowDesktop, p.2.allowMobile⟩
  else none

/-- Reference: the valid button entries of a token list, ignoring
placement. -/
def specValidEntries (buttons : List String) : List String → List ParsedEntry
  | [] => []
  | t :: ts =>
    match lookupSection t with
    | some _ => specValidEntries buttons ts
    | none =>
      match (parseLayoutEntry t).buttonSpec.name with
      | some n =>
        if n ∈ buttons then
          parseLayoutEntry t :: specValidEntries buttons ts
        else specValidEntries buttons ts
      | none => specValidEntries buttons ts

/-- Reference: the button specs of the layout's valid entries that declare
toggle-group `g`, in token order. -/
def specGroupDecls (buttons : List String) (layout : String) (g : String) :
    List ButtonSpec :=
  (specValidEntries buttons (jsSplit '|' layout)).filterMap fun pe =>
    if groupKey pe.buttonSpec = some g then some pe.buttonSpec else none

/-- Reference decoding of the viewport flag for the desktop side:
`"X"` and `"M"` forbid desktop; `"D"` or no flag allow it. -/
def specAllowDesktop : Option String → Bool
  | some "X" => false
  | some "M" => false
  | _ => true

/-- Reference decoding of the viewport flag for the mobile side:
`"X"` and `"D"` forbid mobile; `"M"` or no flag allow it. -/
def specAllowMobile : Option String → Bool
  | some "X" => false
  | some "D" => false
  | _ => true

/-- Whether a piece is one of the three viewport-flag literals. -/
def isWhenFlag (s : String) : Bool := s == "X" || s == "M" || s == "D"

/-- Append newly declared members to an optional existing group list,
creating the group exactly when at least one member is declared. -/
def appendMembers (o : Option (List ButtonSpec)) (l : List ButtonSpec) :
    Option (List ButtonSpec) :=
  match o with
  | some m => some (m ++ l)
  | none => if l = [] then none else some l

/-- The registered members of a toggle-group (empty when the group was
never created). -/
def groupMembers (tgs : ToggleGroups) (g : String) : List ButtonSpec :=
  (lookupTG tgs g).getD []

/-- Whether behavior resolution returned an action rather than throwing. -/
def resolutionSucceeded : Except String ToggleAction → Bool
  | Except.ok _ => true
  | Except.error _ => false

/-- A concrete toolbar event used to evaluate callbacks on a sample
input. -/
def sampleEvent : ToolbarEvent := ⟨⟨0, []⟩⟩

/-- The concrete toggle action resolved from the one-button layout
`"b,,g1"` (group `g1`, `startHidden = false`). -/
def sampleToggleActionB : ToggleAction :=
  { initial := ⟨false, true⟩,
    rules := toggleRules [⟨some "b", some "", some "g1"⟩],
    callback := fun ev st => (ev, toggleFlip st) }

/-- The concrete toggle action resolved from the one-button layout
`"q,,g2"` (group `g2`, `startHidden = true`). -/
def sampleToggleActionQ : ToggleAction :=
  { initial := ⟨true, false⟩,
    rules := toggleRules [⟨some "q", some "", some "g2"⟩],
    callback := fun ev st => (ev, toggleFlip st) }

/-!  Theorems. -/

theorem leadingWsCount_eq (l : List Char) :
    leadingWsCount l = (l.takeWhile jsWhitespace).length := by
  induction l with
  | nil => rfl
  | cons c cs ih =>
    by_cases h : jsWhitespace c
    · simp [leadingWsCount, List.takeWhile_cons, h, ih]
    · simp [leadingWsCount, List.takeWhile_cons, h]

theorem drop_leadingWsCount (l : List Char) :
    l.drop (leadingWsCount l) = l.dropWhile jsWhitespace := by
  induction l with
  | nil => rfl
  | cons c cs ih =>
    by_cases h : jsWhitespace c
    · simp [leadingWsCount, List.dropWhile_cons, h, ih]
    · simp [leadingWsCount, List.dropWhile_cons, h]

theorem trimLeading_eq (sel : Selection) :
    trimLeading sel =
      ⟨sel.start + (sel.value.takeWhile jsWhitespace).length,
       sel.value.dropWhile jsWhitespace⟩ := by
  show (if 0 < leadingWsCount sel.value then
        ({ start := sel.start + leadingWsCount sel.value,
           value := sel.value.drop (leadingWsCount sel.value) } : Selection)
      else sel) = _
  by_cases h : 0 < leadingWsCount sel.value
  · rw [if_pos h, drop_leadingWsCount, leadingWsCount_eq]
  · have h0 : leadingWsCount sel.value = 0 := Nat.eq_zero_of_not_pos h
    have htake : sel.value.takeWhile jsWhitespace = [] := by
      cases hv : sel.value with
      | nil => rfl
      | cons c cs =>
        rw [hv] at h0
        by_cases hc : jsWhitespace c
        · simp [leadingWsCount, hc] at h0
        · simp [List.takeWhile_cons, hc]
    have hdrop : sel.value.dropWhile jsWhitespace = sel.value := by
      cases hv : sel.value with
      | nil => rfl
      | cons c cs =>
        rw [hv] at h0
        by_cases hc : jsWhitespace c
        · simp [leadingWsCount, hc] at h0
        · simp [List.dropWhile_cons, hc]
    simp [h, htake, hdrop]

theorem head?_dropWhile_jsWs (l : List Char) (c : Char)
    (h : (l.dropWhile jsWhitespace).head? = some c) : jsWhitespace c = false := by
  induction l with
  | nil => simp at h
  | cons a as ih =>
    by_cases ha : jsWhitespace a
    · rw [List.dropWhile_cons, if_pos (by simpa using ha)] at h
      exact ih h
    · rw [List.dropWhile_cons, if_neg (by simpa using ha)] at h
      simp at h
      rw [← h]
      simpa using ha

theorem takeWhile_dropWhile_jsWs (l : List Char) :
    (l.dropWhile jsWhitespace).takeWhile jsWhitespace = [] := by
  cases hv : l.dropWhile jsWhitespace with
  | nil => rfl
  | cons c cs =>
    have hc : jsWhitespace c = false :=
      head?_dropWhile_jsWs l c (by rw [hv]; rfl)
    simp [List.takeWhile_cons, hc]

/-- C10: `trimLeading` shifts the start offset forward by exactly the
length of the maximal leading-whitespace prefix of the value (every
character of that prefix is whitespace and the remaining head, if any, is
not), replaces the value with the remaining suffix, loses no character
(the removed prefix concatenated with the new value reproduces the
original value), and is idempotent; and the click action registered for a
popup-menu button first applies `trimLeading` to the event's selection
and then runs the button's resolved action. -/
theorem trimLeading_spec (sel : Selection) :
    trimLeading sel =
      ⟨sel.start + (sel.value.takeWhile jsWhitespace).length,
       sel.value.dropWhile jsWhitespace⟩
    ∧ sel.value = sel.value.takeWhile jsWhitespace ++ (trimLeading sel).value
    ∧ (∀ c ∈ sel.value.takeWhile jsWhitespace, jsWhitespace c = true)
    ∧ (∀ c, (trimLeading sel).value.head? = some c → jsWhitespace c = false)
    ∧ trimLeading (trimLeading sel) = trimLeading sel
    ∧ (∀ (globalName : String) (icon : Option String) (titleKey : String)
          (hoverKey : Option String) (bs : ButtonSpec)
          (act : ToolbarEvent → ToolbarEvent) (aD aM : Bool) (ev : ToolbarEvent),
        (addPopupMenuButtonWithCondition globalName icon titleKey hoverKey
            bs act aD aM).action ev
          = act { ev with selected := trimLeading ev.selected }) := by
  refine ⟨trimLeading_eq sel, ?_, ?_, ?_, ?_, ?_⟩
  · rw [trimLeading_eq]
    exact (List.takeWhile_append_dropWhile jsWhitespace sel.value).symm
  · intro c hc
    exact List.mem_takeWhile_imp hc
  · intro c hc
    rw [trimLeading_eq] at hc
    exact head?_dropWhile_jsWs sel.value c hc
  · rw [trimLeading_eq, trimLeading_eq]
    simp [takeWhile_dropWhile_jsWs, List.dropWhile_idempotent]
  · intro globalName icon titleKey hoverKey bs act aD aM ev
    rfl

/-- Evaluation of C10 at a concrete selection: two spaces before `"ab"`
are removed and the start offset moves from 4 to 6. -/
theorem trimLeading_spec_witness :
    trimLeading ⟨4, [' ', ' ', 'a', 'b']⟩ = ⟨6, ['a', 'b']⟩ :=
  (trimLeading_spec ⟨4, [' ', ' ', 'a', 'b']⟩).1.trans (by decide)

theorem processToken_section (buttons : List String) (st : ParseState)
    (t : String) (sec : SectionSpec) (hsec : lookupSection t = some sec) :
    processToken buttons st t = { st with currentSection := sec } := by
  simp [processToken, hsec]

theorem processToken_noName (buttons : List String) (st : ParseState)
    (t : String) (hsec : lookupSection t = none)
    (hname : (parseLayoutEntry t).buttonSpec.name = none) :
    processToken buttons st t = st := by
  simp [processToken, hsec, hname]

theorem processToken_unknown (buttons : List String) (st : ParseState)
    (t : String) (n : String) (hsec : lookupSection t = none)
    (hname : (parseLayoutEntry t).buttonSpec.name = some n)
    (hmem : n ∉ buttons) :
    processToken buttons st t = st := by
  simp [processToken, hsec, hname, hmem]

theorem processToken_toolbar (buttons : List String) (st : ParseState)
    (t : String) (n : String) (hsec : lookupSection t = none)
    (hname : (parseLayoutEntry t).buttonSpec.name = some n)
    (hmem : n ∈ buttons) (hplace : st.currentSection.place = Place.TOOLBAR) :
    processToken buttons st t =
      { st with
        toggleGroups := pushGroup st.toggleGroups (parseLayoutEntry t).buttonSpec,
        plan := { st.plan with
          toolbar := st.plan.toolbar ++
            [⟨st.currentSection.groupName, (parseLayoutEntry t).buttonSpec,
              (parseLayoutEntry t).allowDesktop,
              (parseLayoutEntry t).allowMobile⟩] } } := by
  simp [processToken, hsec, hname, hmem, hplace]

theorem processToken_gearmenu (buttons : List String) (st : ParseState)
    (t : String) (n : String) (hsec : lookupSection t = none)
    (hname : (parseLayoutEntry t).buttonSpec.name = some n)
    (hmem : n ∈ buttons) (hplace : st.currentSection.place = Place.GEARMENU) :
    processToken buttons st t =
      { st with
        toggleGroups := pushGroup st.toggleGroups (parseLayoutEntry t).buttonSpec,
        plan := { st.plan with
          gearmenu := st.plan.gearmenu ++
            [⟨(parseLayoutEntry t).buttonSpec,
              (parseLayoutEntry t).allowDesktop,
              (parseLayoutEntry t).allowMobile⟩] } } := by
  simp [processToken, hsec, hname, hmem, hplace]

theorem foldl_toolbar (buttons : List String) (ts : List String) :
    ∀ st : ParseState,
      ((ts.foldl (processToken buttons) st).plan).toolbar
        = st.plan.toolbar ++
            (specPlacementEntries buttons st.currentSection ts).filterMap
              specToolbarEntry := by
  induction ts with
  | nil => intro st; simp [specPlacementEntries]
  | cons t ts ih =>
    intro st
    rw [List.foldl_cons]
    cases hsec : lookupSection t with
    | some sec =>
      rw [processToken_section buttons st t sec hsec, ih]
      simp [specPlacementEntries, hsec]
    | none =>
      cases hname : (parseLayoutEntry t).buttonSpec.name with
      | none =>
        rw [processToken_noName buttons st t hsec hname, ih]
        simp [specPlacementEntries, hsec, hname]
      | some n =>
        by_cases hmem : n ∈ buttons
        · cases hplace : st.currentSection.place with
          | TOOLBAR =>
            rw [processToken_toolbar buttons st t n hsec hname hmem hplace, ih]
            simp [specPlacementEntries, hsec, hname, hmem, specToolbarEntry,
              hplace, List.filterMap_cons]
          | GEARMENU =>
            rw [processToken_gearmenu buttons st t n hsec hname hmem hplace, ih]
            simp [specPlacementEntries, hsec, hname, hmem, specToolbarEntry,
              hplace, List.filterMap_cons]
        · rw [processToken_unknown buttons st t n hsec hname hmem, ih]
          simp [specPlacementEntries, hsec, hname, hmem]

theorem foldl_gearmenu (buttons : List String) (ts : List String) :
    ∀ st : ParseState,
      ((ts.foldl (processToken buttons) st).plan).gearmenu
        = st.plan.gearmenu ++
            (specPlacementEntries buttons st.currentSection ts).filterMap
              specGearmenuEntry := by
  induction ts with
  | nil => intro st; simp [specPlacementEntries]
  | cons t ts ih =>
    intro st
    rw [List.foldl_cons]
    cases hsec : lookupSection t with
    | some sec =>
      rw [processToken_section buttons st t sec hsec, ih]
      simp [specPlacementEntries, hsec]
    | none =>
      cases hname : (parseLayoutEntry t).buttonSpec.name with
      | none =>
        rw [processToken_noName buttons st t hsec hname, ih]
        simp [specPlacementEntries, hsec, hname]
      | some n =>
        by_cases hmem : n ∈ buttons
        · cases hplace : st.currentSection.place with
          | TOOLBAR =>
            rw [processToken_toolbar buttons st t n hsec hname hmem hplace, ih]
            simp [specPlacementEntries, hsec, hname, hmem, specGearmenuEntry,
              hplace, List.filterMap_cons]
          | GEARMENU =>
            rw [processToken_gearmenu buttons st t n hsec hname hmem hplace, ih]
            simp [specPlacementEntries, hsec, hname, hmem, specGearmenuEntry,
              hplace, List.filterMap_cons]
        · rw [processToken_unknown buttons st t n hsec hname hmem, ih]
          simp [specPlacementEntries, hsec, hname, hmem]

theorem lookupTG_addToGroup_self (tgs : ToggleGroups) (g : String)
    (spec : ButtonSpec) :
    lookupTG (addToGroup tgs g spec) g =
      some ((lookupTG tgs g).getD [] ++ [spec]) := by
  induction tgs with
  | nil => simp [addToGroup, lookupTG]
  | cons p rest ih =>
    obtain ⟨k, l⟩ := p
    by_cases hk : k = g
    · simp [addToGroup, lookupTG, hk]
    · simp [addToGroup, lookupTG, hk, ih]

theorem lookupTG_addToGroup_ne (tgs : ToggleGroups) (g g' : String)
    (spec : ButtonSpec) (h : g' ≠ g) :
    lookupTG (addToGroup tgs g spec) g' = lookupTG tgs g' := by
  induction tgs with
  | nil =>
    have hgg : ¬g = g' := fun hh => h hh.symm
    simp [addToGroup, lookupTG, hgg]
  | cons p rest ih =>
    obtain ⟨k, l⟩ := p
    by_cases hk : k = g
    · have hgg : ¬g = g' := fun hh => h hh.symm
      simp [addToGroup, lookupTG, hk, hgg]
    · simp [addToGroup, lookupTG, hk, ih]

theorem appendMembers_append (o : Option (List ButtonSpec))
    (l₁ l₂ : List ButtonSpec) :
    appendMembers (appendMembers o l₁) l₂ = appendMembers o (l₁ ++ l₂) := by
  cases o with
  | some m => simp [appendMembers]
  | none =>
    by_cases h : l₁ = []
    · subst h; simp [appendMembers]
    · have h₂ : l₁ ++ l₂ ≠ [] := by
        intro hc
        exact h (List.append_eq_nil.mp hc).1
      simp [appendMembers, h, h₂]

theorem lookupTG_pushGroup (tgs : ToggleGroups) (spec : ButtonSpec)
    (g : String) :
    lookupTG (pushGroup tgs spec) g =
      (if groupKey spec = some g
       then appendMembers (lookupTG tgs g) [spec]
       else lookupTG tgs g) := by
  cases hgk : groupKey spec with
  | none => simp [pushGroup, hgk]
  | some g₀ =>
    by_cases hg : g₀ = g
    · subst hg
      rw [if_pos rfl]
      rw [pushGroup, hgk, lookupTG_addToGroup_self]
      cases h : lookupTG tgs g₀ <;> simp [appendMembers, h]
    · rw [if_neg (by simp [hg])]
      rw [pushGroup, hgk, lookupTG_addToGroup_ne tgs g₀ g spec (fun hh => hg hh.symm)]

/-- The members that the valid entries of a token list declare for
group `g`, in order. -/
theorem foldl_lookupTG (buttons : List String) (g : String) (ts : List String) :
    ∀ st : ParseState,
      lookupTG ((ts.foldl (processToken buttons) st).toggleGroups) g
        = appendMembers (lookupTG st.toggleGroups g)
            ((specValidEntries buttons ts).filterMap fun pe =>
              if groupKey pe.buttonSpec = some g then some pe.buttonSpec
              else none) := by
  induction ts with
  | nil =>
    intro st
    cases h : lookupTG st.toggleGroups g <;>
      simp [specValidEntries, appendMembers, h]
  | cons t ts ih =>
    intro st
    rw [List.foldl_cons]
    cases hsec : lookupSection t with
    | some sec =>
      rw [processToken_section buttons st t sec hsec, ih]
      simp [specValidEntries, hsec]
    | none =>
      cases hname : (parseLayoutEntry t).buttonSpec.name with
      | none =>
        rw [processToken_noName buttons st t hsec hname, ih]
        simp [specValidEntries, hsec, hname]
      | some n =>
        by_cases hmem : n ∈ buttons
        · have hstep :
              ((processToken buttons st t).toggleGroups)
                = pushGroup st.toggleGroups (parseLayoutEntry t).buttonSpec ∧
              ((processToken buttons st t).currentSection) = st.currentSection := by
            cases hplace : st.currentSection.place with
            | TOOLBAR =>
              rw [processToken_toolbar buttons st t n hsec hname hmem hplace]
              exact ⟨rfl, rfl⟩
            | GEARMENU =>
              rw [processToken_gearmenu buttons st t n hsec hname hmem hplace]
              exact ⟨rfl, rfl⟩
          rw [ih (processToken buttons st t), hstep.1, lookupTG_pushGroup]
          by_cases hgk : groupKey (parseLayoutEntry t).buttonSpec = some g
          · rw [if_pos hgk, appendMembers_append]
            simp [specValidEntries, hsec, hname, hmem, List.filterMap_cons, hgk]
          · rw [if_neg hgk]
            simp [specValidEntries, hsec, hname, hmem, List.filterMap_cons, hgk]
        · rw [processToken_unknown buttons st t n hsec hname hmem, ih]
          simp [specValidEntries, hsec, hname, hmem]

/-- C1: for every layout string and button set, the parsed plan's toolbar
and gear-menu lists are exactly the valid button tokens in original order,
each paired with the placement target current at that token (starting from
the default `extras` toolbar zone), each valid token yielding exactly one
entry on exactly one surface, and section-keyword tokens yielding none. -/
theorem parseLayout_placement (buttons : List String) (layout : String) :
    (parseLayout buttons layout).plan.toolbar
      = (specPlacementEntries buttons sectionEXTRAS (jsSplit '|' layout)).filterMap
          specToolbarEntry
    ∧ (parseLayout buttons layout).plan.gearmenu
      = (specPlacementEntries buttons sectionEXTRAS (jsSplit '|' layout)).filterMap
          specGearmenuEntry
    ∧ (∀ p : SectionSpec × ParsedEntry,
        (specToolbarEntry p).isSome = !(specGearmenuEntry p).isSome) := by
  refine ⟨?_, ?_, ?_⟩
  · rw [parseLayout, foldl_toolbar]
    simp [initState]
  · rw [parseLayout, foldl_gearmenu]
    simp [initState]
  · intro p
    obtain ⟨sec, pe⟩ := p
    cases hp : sec.place <;> simp [specToolbarEntry, specGearmenuEntry, hp]

/-- C2: a layout token that is neither a section keyword nor a button entry
with a configured name is skipped without affecting anything: the whole
parse result equals the parse of the token sequence with that token
removed, so all valid entries before and after it still appear, and
`parseLayout` (being total) raises no error for the bad entry. -/
theorem parseLayout_error_isolation (buttons : List String) (layout : String)
    (pre post : List String) (bad : String)
    (hsplit : jsSplit '|' layout = pre ++ bad :: post)
    (hsec : lookupSection bad = none)
    (hname : ∀ n, (parseLayoutEntry bad).buttonSpec.name = some n → n ∉ buttons) :
    parseLayout buttons layout
      = (pre ++ post).foldl (processToken buttons) initState := by
  rw [parseLayout, hsplit, List.foldl_append, List.foldl_cons, List.foldl_append]
  congr 1
  cases hn : (parseLayoutEntry bad).buttonSpec.name with
  | none => exact processToken_noName buttons _ bad hsec hn
  | some n => exact processToken_unknown buttons _ bad n hsec hn (hname n hn)

/-- Evaluation of C2 at a concrete input: the unknown button `"unknown"`
between `"bold"` and `"italic"` drops out and the rest parses as if it
were absent. -/
theorem parseLayout_error_isolation_witness :
    parseLayout ["bold", "italic"] "bold|unknown|italic"
      = (["bold"] ++ ["italic"]).foldl (processToken ["bold", "italic"])
          initState := by
  refine parseLayout_error_isolation ["bold", "italic"] "bold|unknown|italic"
    ["bold"] ["italic"] "unknown" (by decide) (by decide) ?_
  intro n hn
  have he : (parseLayoutEntry "unknown").buttonSpec.name = some "unknown" := by
    decide
  rw [he] at hn
  cases hn
  decide

/-- C5: after `parseLayout`, a toggle-group's lookup yields exactly the
button specs of the layout entries that declared that group name, in
declaration order (hence the same set regardless of order), with the group
present precisely when at least one entry declared it. -/
theorem parseLayout_toggleGroups (buttons : List String) (layout : String)
    (g : String) :
    lookupTG (parseLayout buttons layout).toggleGroups g
      = (if specGroupDecls buttons layout g = [] then none
         else some (specGroupDecls buttons layout g))
    ∧ groupMembers (parseLayout buttons layout).toggleGroups g
      = specGroupDecls buttons layout g := by
  have h := foldl_lookupTG buttons g (jsSplit '|' layout) initState
  have h0 : lookupTG initState.toggleGroups g = none := rfl
  rw [h0] at h
  rw [parseLayout] at *
  constructor
  · rw [h]
    simp only [specGroupDecls, appendMembers]
  · rw [groupMembers, h]
    simp only [specGroupDecls, appendMembers]
    by_cases hd :
        ((specValidEntries buttons (jsSplit '|' layout)).filterMap fun pe =>
          if groupKey pe.buttonSpec = some g then some pe.buttonSpec
          else none) = []
    · simp [hd]
    · simp [hd]

/-- C6: resolving a `toggleGroup` button against the groups built by
`parseLayout` succeeds exactly when the named group has at least one
registered member (resolution, not click, is where the empty-group case
fails), and a successfully resolved callback returns the toolbar event
untouched — it performs no text-editing operation. -/
theorem makeToggleAction_spec (buttons : List String) (layout : String)
    (bn g : String) (sh : Bool) :
    resolutionSucceeded
        (makeToggleAction (parseLayout buttons layout).toggleGroups bn g sh)
      = !(groupMembers (parseLayout buttons layout).toggleGroups g).isEmpty
    ∧ (∀ (a : ToggleAction) (ev : ToolbarEvent) (st : ToggleState),
        makeToggleAction (parseLayout buttons layout).toggleGroups bn g sh
          = Except.ok a →
        (a.callback ev st).1 = ev) := by
  have h := foldl_lookupTG buttons g (jsSplit '|' layout) initState
  have h0 : lookupTG initState.toggleGroups g = none := rfl
  rw [h0] at h
  constructor
  · cases hl : lookupTG (parseLayout buttons layout).toggleGroups g with
    | none => simp [makeToggleAction, hl, resolutionSucceeded, groupMembers]
    | some m =>
      have hm : m ≠ [] := by
        rw [parseLayout] at hl
        rw [h] at hl
        by_cases hd :
            ((specValidEntries buttons (jsSplit '|' layout)).filterMap fun pe =>
              if groupKey pe.buttonSpec = some g then some pe.buttonSpec
              else none) = []
        · rw [appendMembers, if_pos hd] at hl
          cases hl
        · rw [appendMembers, if_neg hd] at hl
          cases hl
          exact hd
      rcases m with _ | ⟨x, xs⟩
      · exact absurd rfl hm
      · simp [makeToggleAction, hl, resolutionSucceeded, groupMembers]
  · intro a ev st ha
    cases hl : lookupTG (parseLayout buttons layout).toggleGroups g with
    | none => simp [makeToggleAction, hl] at ha
    | some m =>
      simp [makeToggleAction, hl] at ha
      subst ha
      rfl

/-- Evaluation of C6 at a concrete input: the callback resolved for group
`g2` (one member) leaves the toolbar event unchanged. -/
theorem makeToggleAction_spec_witness :
    (sampleToggleActionQ.callback sampleEvent ⟨true, false⟩).1 = sampleEvent :=
  (makeToggleAction_spec ["q"] "q,,g2" "q" "g2" true).2
    sampleToggleActionQ sampleEvent ⟨true, false⟩ (by rfl)

/-- C7: a successfully resolved toggle action starts in a state where the
stylesheet's disabled bit mirrors the negated hidden flag, its callback
preserves that invariant, and on any such state two invocations of the
callback restore both the hidden flag and the stylesheet state exactly. -/
theorem toggleAction_involution (tgs : ToggleGroups) (bn g : String) (sh : Bool)
    (a : ToggleAction) (ha : makeToggleAction tgs bn g sh = Except.ok a) :
    a.initial.stylesheetDisabled = !a.initial.isHidden
    ∧ (∀ (ev : ToolbarEvent) (st : ToggleState),
        ((a.callback ev st).2).stylesheetDisabled
          = !((a.callback ev st).2).isHidden)
    ∧ (∀ (ev ev' : ToolbarEvent) (st : ToggleState),
        st.stylesheetDisabled = !st.isHidden →
        (a.callback ev' ((a.callback ev st).2)).2 = st) := by
  cases hl : lookupTG tgs g with
  | none => simp [makeToggleAction, hl] at ha
  | some m =>
    simp [makeToggleAction, hl] at ha
    subst ha
    refine ⟨rfl, fun ev st => rfl, ?_⟩
    intro ev ev' st hst
    obtain ⟨h, d⟩ := st
    simp only at hst
    subst hst
    cases h <;> rfl

/-- Evaluation of C7 at a concrete input: starting from
`(isHidden, stylesheetDisabled) = (false, true)`, two invocations of the
group-`g1` callback return to `(false, true)`. -/
theorem toggleAction_involution_witness :
    (sampleToggleActionB.callback sampleEvent
        ((sampleToggleActionB.callback sampleEvent ⟨false, true⟩).2)).2
      = (⟨false, true⟩ : ToggleState) :=
  (toggleAction_involution (parseLayout ["b"] "b,,g1").toggleGroups
      "b" "g1" false sampleToggleActionB (by rfl)).2.2
    sampleEvent sampleEvent ⟨false, true⟩ rfl

/-- C3: viewport applicability travels as data in every plan entry, and the
allow/deny choice is made only when a surface is built: the toolbar loop
keeps an entry exactly when `(desktop ∧ allowDesktop) ∨ (mobile ∧
allowMobile)`, the registered popup `condition` callback computes the same
predicate, and on the layout `"STYLES|bold,shift+b|EXTRAS|X,hidden1|`
`GEARMENU|italic"` the plan retains `hidden1` while every viewport renders
fontStyles → [bold, shortcut shift+b], extras → [], popup → [italic]. -/
theorem deferredViewportFiltering :
    (∀ (isDesktop : Bool) (tb : List ToolbarPlanEntry),
        onToolbarCreate isDesktop tb
          = tb.filter fun e =>
              (isDesktop && e.allowDesktop) || (!isDesktop && e.allowMobile))
    ∧ (∀ (globalName : String) (icon : Option String) (titleKey : String)
          (hoverKey : Option String) (bs : ButtonSpec)
          (act : ToolbarEvent → ToolbarEvent) (aD aM d : Bool),
        (addPopupMenuButtonWithCondition globalName icon titleKey hoverKey
            bs act aD aM).condition d
          = ((d && aD) || (!d && aM)))
    ∧ (parseLayout ["bold", "hidden1", "italic"]
          "STYLES|bold,shift+b|EXTRAS|X,hidden1|GEARMENU|italic").plan
        = ⟨[⟨some "fontStyles", ⟨some "bold", some "shift+b", none⟩, true, true⟩,
            ⟨some "extras", ⟨some "hidden1", none, none⟩, false, false⟩],
           [⟨⟨some "italic", none, none⟩, true, true⟩]⟩
    ∧ (∀ d : Bool,
        onToolbarCreate d
            (parseLayout ["bold", "hidden1", "italic"]
              "STYLES|bold,shift+b|EXTRAS|X,hidden1|GEARMENU|italic").plan.toolbar
          = [⟨some "fontStyles", ⟨some "bold", some "shift+b", none⟩, true, true⟩])
    ∧ (∀ d : Bool,
        gearmenuShown d
            (parseLayout ["bold", "hidden1", "italic"]
              "STYLES|bold,shift+b|EXTRAS|X,hidden1|GEARMENU|italic").plan.gearmenu
          = [⟨⟨some "italic", none, none⟩, true, true⟩]) := by
  refine ⟨?_, ?_, by decide, ?_, ?_⟩
  · intro d tb
    rw [onToolbarCreate]
    apply List.filter_congr
    intro e _
    cases d <;> cases he : e.allowDesktop <;> cases hm : e.allowMobile <;> rfl
  · intro globalName icon titleKey hoverKey bs act aD aM d
    rfl
  · intro d
    cases d <;> decide
  · intro d
    cases d <;> decide

theorem get?_two_isSome (ps : List String)
    (h : (ps.get? 2).isSome = true) : (ps.get? 1).isSome = true := by
  rcases ps with _ | ⟨a, _ | ⟨b, t⟩⟩
  · simp at h
  · simp at h
  · rfl

theorem parseLayoutEntry_shape (entry : String) :
    ∃ ps : List String,
      (parseLayoutEntry entry).buttonSpec =
        ⟨ps.get? 0, ps.get? 1, ps.get? 2⟩ := by
  unfold parseLayoutEntry
  split <;> exact ⟨_, rfl⟩

/-- C4: splitting a button-entry token on commas, a leading `"X"`, `"M"`,
or `"D"` decodes to neither viewport / mobile-only / desktop-only, absence
of a flag allows both, and the remaining fields are positional — name,
then shortcut, then toggle-group — so a toggle-group is present only when
a (possibly empty) shortcut field precedes it. -/
theorem parseLayoutEntry_spec :
    (∀ (entry : String) (w : Option String) (fields : List String),
        jsSplit ',' entry = (match w with
                             | some f => f :: fields
                             | none => fields) →
        (match w with
         | some f => isWhenFlag f = true
         | none => fields.head?.all (fun h => !isWhenFlag h) = true) →
        parseLayoutEntry entry =
          ⟨specAllowDesktop w, specAllowMobile w,
           ⟨fields.get? 0, fields.get? 1, fields.get? 2⟩⟩)
    ∧ (∀ entry : String,
        ((parseLayoutEntry entry).buttonSpec.toggleGroup).isSome = true →
        ((parseLayoutEntry entry).buttonSpec.shortcut).isSome = true) := by
  constructor
  · intro entry w fields hsplit hflag
    unfold parseLayoutEntry
    rw [hsplit]
    cases w with
    | some f =>
      simp only [isWhenFlag, Bool.or_eq_true, beq_iff_eq] at hflag
      rcases hflag with (hf | hf) | hf <;> subst hf <;> rfl
    | none =>
      cases fields with
      | nil => rfl
      | cons h₀ rest =>
        simp only [List.head?_cons, Option.all_some, Bool.not_eq_true'] at hflag
        have hX : ¬h₀ = "X" := fun hh => by simp [isWhenFlag, hh] at hflag
        have hM : ¬h₀ = "M" := fun hh => by simp [isWhenFlag, hh] at hflag
        have hD : ¬h₀ = "D" := fun hh => by simp [isWhenFlag, hh] at hflag
        split
        · rename_i rest' heq
          injection heq with h1 _
          exact absurd h1 hX
        · rename_i rest' heq
          injection heq with h1 _
          exact absurd h1 hM
        · rename_i rest' heq
          injection heq with h1 _
          exact absurd h1 hD
        · rfl
  · intro entry h
    obtain ⟨ps, hps⟩ := parseLayoutEntry_shape entry
    rw [hps] at h
    rw [hps]
    exact get?_two_isSome ps h

/-- Evaluation of C4 at a concrete input: `"M,quote,,aside"` decodes to
mobile-only, name `quote`, empty shortcut, toggle-group `aside`. -/
theorem parseLayoutEntry_spec_witness :
    parseLayoutEntry "M,quote,,aside" =
      ⟨false, true, ⟨some "quote", some "", some "aside"⟩⟩ :=
  (parseLayoutEntry_spec.1 "M,quote,,aside" (some "M") ["quote", "", "aside"]
      (by decide) (by decide)).trans (by decide)

/-- C8: locale-override resolution returns the override value when the
active translation table has an entry keyed `buttonName ++ "." ++
paramName`, and the configured default when no table is active or no such
entry exists. -/
theorem applyTranslation_spec (ts : List TranslationEntry) (d bn pn : String) :
    applyTranslation none d bn pn = d
    ∧ ((∀ e ∈ ts, e.key ≠ bn ++ "." ++ pn) →
        applyTranslation (some ts) d bn pn = d)
    ∧ (∀ e, e ∈ ts → e.key = bn ++ "." ++ pn →
        ∃ e₂, e₂ ∈ ts ∧ e₂.key = bn ++ "." ++ pn
          ∧ applyTranslation (some ts) d bn pn = e₂.value) := by
  refine ⟨rfl, ?_, ?_⟩
  · intro hall
    have hnone : ts.find? (fun e => e.key == bn ++ "." ++ pn) = none := by
      rw [List.find?_eq_none]
      intro e he
      simp [hall e he]
    simp only [applyTranslation, hnone]
  · intro e he hk
    have hsome : (ts.find? (fun e => e.key == bn ++ "." ++ pn)).isSome :=
      List.find?_isSome.mpr ⟨e, he, by simp [hk]⟩
    obtain ⟨e₂, he₂⟩ := Option.isSome_iff_exists.mp hsome
    refine ⟨e₂, List.mem_of_find?_eq_some he₂, ?_, ?_⟩
    · have hp := List.find?_some he₂
      simpa using hp
    · simp only [applyTranslation, he₂]

/-- Evaluation of C8 at concrete inputs: the override `(foo, title) = Bar`
is returned when present and the default when the key misses. -/
theorem applyTranslation_spec_witness :
    applyTranslation (some [⟨"foo.title", "Bar"⟩]) "Default" "foo" "title"
        = "Bar"
    ∧ applyTranslation (some [⟨"foo.title", "Bar"⟩]) "Default" "other" "title"
        = "Default" := by
  constructor
  · obtain ⟨e₂, he₂, _, hv⟩ :=
      (applyTranslation_spec [⟨"foo.title", "Bar"⟩] "Default" "foo" "title").2.2
        ⟨"foo.title", "Bar"⟩ (List.mem_singleton.mpr rfl) rfl
    rw [hv, List.eq_of_mem_singleton he₂]
  · exact (applyTranslation_spec [⟨"foo.title", "Bar"⟩] "Default" "other"
      "title").2.1 (by decide)

/-- C9 (divergence witness): the option record registered for a popup-menu
button carries the ambient global `name` (the browser's `window.name`,
normally the empty string) in its `name` field — for every input — and in
particular, for button `italic` with the default empty global, the `name`
field is not the synthesized identifier `ComposerButtonBonanza-btn-italic`
that the specification prescribes. -/
theorem popupOption_name_bug :
    (∀ (globalName : String) (icon : Option String) (titleKey : String)
        (hoverKey : Option String) (bs : ButtonSpec)
        (act : ToolbarEvent → ToolbarEvent) (aD aM : Bool),
      (addPopupMenuButtonWithCondition globalName icon titleKey hoverKey
          bs act aD aM).name = globalName)
    ∧ (((addPopupMenuButtonWithCondition "" (some "italic-icon") "titleKey"
          none ⟨some "italic", none, none⟩ id true true).name
        == makeButtonIdentifier "italic") = false)
    ∧ makeButtonIdentifier "italic" = "ComposerButtonBonanza-btn-italic" := by
  exact ⟨fun _ _ _ _ _ _ _ _ => rfl, by decide, by decide⟩

end CBB
